import Mathlib

/-!
Verification of the `stream` process-flow extraction pipeline.

This file is a shallow embedding of the repository's core components:
the structural recovery engine (`safe_json_loads` in `llm_extractor.py`),
the extraction pipeline (`FlowExtractor.extract_process_flow`,
`extract_from_documents`, `_call_custom_api`, `_call_ollama_api`), and the
persistence mapper (`FlowDatabase.insert_process_flow`, `insert_multiple`,
`get_process_flow` in `flow_database.py`).

Modelling conventions:
- Python JSON values are modelled by the inductive `Json`; numbers are
  modelled as (unbounded) integers, matching Python's arbitrary-precision
  ints — float literals do not occur in any of the data the verified
  properties quantify over.
- `json.loads` is modelled by an executable recursive-descent parser
  (`json_loads`), `json.dumps` by an executable serializer (`dumps`).
  The serializer emits canonical output (no optional whitespace,
  non-ASCII characters emitted raw rather than `\uXXXX`-escaped); the
  value obtained by re-parsing is identical to CPython's, which is what
  every claim observes.
- Python exceptions are modelled by the inductive `PyError`.  The
  `ValueError("No JSON object found in response")` raised by
  `safe_json_loads` is the error the design spec calls
  `MalformedOutputError`.
- Object values are association lists; the parser does not collapse
  duplicate keys (CPython's dict keeps the last), no verified property
  involves duplicate keys in parsed text.
-/

namespace StreamSpec

/-- JSON values as produced by Python's `json` module (numbers restricted
to integers, see the module docstring). -/
inductive Json where
  | null : Json
  | bool (b : Bool) : Json
  | num (n : Int) : Json
  | str (s : String) : Json
  | arr (elems : List Json) : Json
  | obj (fields : List (String × Json)) : Json

/-- Python exception values observable from the embedded code. -/
inductive PyError where
  /-- `ValueError("No JSON object found in response")` raised by
  `safe_json_loads`; the spec's `MalformedOutputError`. -/
  | malformedOutput (msg : String)
  /-- `json.JSONDecodeError` from a failed `json.loads`. -/
  | jsonDecodeError (msg : String)
  /-- `ValueError("Invalid JSON response from LLM: ...")` raised by
  `extract_process_flow` when it catches a `JSONDecodeError`. -/
  | invalidJsonResponse (msg : String)
  | typeError (msg : String)
  | attributeError (msg : String)
  /-- `sqlite3.InterfaceError` from binding an unsupported type. -/
  | interfaceError (msg : String)
  /-- `requests` transport failure (timeout, HTTP error). -/
  | transportError (msg : String)
  | keyError (msg : String)
  | indexError (msg : String)
  deriving DecidableEq

/-! ## Serialization: model of `json.dumps` -/

/-- Decimal digit character for `n < 10`. -/
def digitChar (n : Nat) : Char := Char.ofNat (48 + n)

/-- Lowercase hex digit character for `n < 16` (as CPython's `%04x`). -/
def hexDigitChar (n : Nat) : Char :=
  if n < 10 then digitChar n else Char.ofNat (87 + n)

/-- Decimal digits, fuel-indexed (the fuel only bounds the digit count;
`toDigitsNat` supplies `n + 1`, which a base-10 numeral can never
exhaust). -/
def toDigitsAux : Nat → Nat → List Char
  | 0, _ => []
  | fuel + 1, n =>
    if n < 10 then [digitChar n]
    else toDigitsAux fuel (n / 10) ++ [digitChar (n % 10)]

/-- Decimal digits of a natural number, most significant first. -/
def toDigitsNat (n : Nat) : List Char := toDigitsAux (n + 1) n

/-- Decimal rendering of an integer (as Python `json.dumps` of an int). -/
def dumpInt (n : Int) : List Char :=
  if n < 0 then '-' :: toDigitsNat n.natAbs else toDigitsNat n.toNat

/-- JSON string escaping for one character: `"` and `\` get a backslash
escape, control characters a `\u00XX` escape, everything else is emitted
raw. -/
def escChar (c : Char) : List Char :=
  if c = '"' then ['\\', '"']
  else if c = '\\' then ['\\', '\\']
  else if c.toNat < 32 then
    '\\' :: 'u' :: '0' :: '0' ::
      [hexDigitChar (c.toNat / 16), hexDigitChar (c.toNat % 16)]
  else [c]

/-- JSON string escaping of a character list. -/
def escList : List Char → List Char
  | [] => []
  | c :: cs => escChar c ++ escList cs

/-- Serialized form of a JSON string literal, both quotes included. -/
def dumpStrLit (s : String) : List Char :=
  '"' :: (escList s.data ++ ['"'])

mutual
/-- Model of `json.dumps`: canonical serialization of a `Json` value. -/
def dumpV : Json → List Char
  | .null => 'n' :: ['u', 'l', 'l']
  | .bool true => 't' :: ['r', 'u', 'e']
  | .bool false => 'f' :: ['a', 'l', 's', 'e']
  | .num n => dumpInt n
  | .str s => dumpStrLit s
  | .arr [] => ['[', ']']
  | .arr (v :: vs) => '[' :: dumpElems (v :: vs)
  | .obj [] => ['{', '}']
  | .obj (f :: fs) => '{' :: dumpFields (f :: fs)

/-- Serialized elements of a non-empty array, closing `]` included. -/
def dumpElems : List Json → List Char
  | [] => [']']
  | [v] => dumpV v ++ [']']
  | v :: v' :: vs => dumpV v ++ ',' :: dumpElems (v' :: vs)

/-- Serialized fields of a non-empty object, closing `}` included. -/
def dumpFields : List (String × Json) → List Char
  | [] => ['}']
  | [(k, v)] => dumpStrLit k ++ ':' :: (dumpV v ++ ['}'])
  | (k, v) :: f' :: fs => dumpStrLit k ++ ':' :: (dumpV v ++ ',' :: dumpFields (f' :: fs))
end

/-- Model of `json.dumps` returning a `String`. -/
def dumps (v : Json) : String := String.mk (dumpV v)

/-! ## Parsing: model of `json.loads`

A fuel-indexed recursive-descent parser over the JSON grammar accepted by
Python's `json.loads` (strict mode: no trailing commas, no comments,
control characters forbidden inside strings, only JSON whitespace skipped
between tokens).  The fuel only bounds bracket-nesting depth; the
top-level entry point `json_loads` supplies `length + 1` fuel, which can
never be exhausted on an accepted input since each nesting level consumes
at least one character. -/

/-- The four JSON whitespace characters skipped by `json.loads`. -/
def isJsonWs (c : Char) : Bool :=
  c = ' ' || c = '\t' || c = '\n' || c = '\r'

/-- Skip leading JSON whitespace. -/
def skipWs : List Char → List Char
  | [] => []
  | c :: r => if isJsonWs c then skipWs r else c :: r

/-- Value of one hex digit. -/
def hexVal (c : Char) : Option Nat :=
  if c.isDigit then some (c.toNat - 48)
  else if 'a' ≤ c ∧ c ≤ 'f' then some (c.toNat - 87)
  else if 'A' ≤ c ∧ c ≤ 'F' then some (c.toNat - 55)
  else none

/-- Value of a four-hex-digit escape. -/
def hex4 (h1 h2 h3 h4 : Char) : Option Nat := do
  let v1 ← hexVal h1
  let v2 ← hexVal h2
  let v3 ← hexVal h3
  let v4 ← hexVal h4
  some (v1 * 4096 + v2 * 256 + v3 * 16 + v4)

/-- Decoding of a single-character string escape. -/
def escDecode (e : Char) : Option Char :=
  if e = '"' then some '"'
  else if e = '\\' then some '\\'
  else if e = '/' then some '/'
  else if e = 'n' then some '\n'
  else if e = 't' then some '\t'
  else if e = 'r' then some '\r'
  else if e = 'b' then some (Char.ofNat 8)
  else if e = 'f' then some (Char.ofNat 12)
  else none

/-- Parse the body of a string literal (opening quote already consumed),
returning the decoded characters and the remainder after the closing
quote.  Fuel-indexed; every step consumes at least one character, so the
`length + 1` supplied at the call sites can never be exhausted. -/
def pStrBody : Nat → List Char → Option (List Char × List Char)
  | 0, _ => none
  | _ + 1, [] => none
  | fuel + 1, c :: r =>
    if c = '"' then some ([], r)
    else if c = '\\' then
      match r with
      | [] => none
      | e :: r' =>
        if e = 'u' then
          match r' with
          | h1 :: h2 :: h3 :: h4 :: r'' =>
            match hex4 h1 h2 h3 h4 with
            | some n =>
              match pStrBody fuel r'' with
              | some (cs, rest) => some (Char.ofNat n :: cs, rest)
              | none => none
            | none => none
          | _ => none
        else
          match escDecode e with
          | some ec =>
            match pStrBody fuel r' with
            | some (cs, rest) => some (ec :: cs, rest)
            | none => none
          | none => none
    else if c.toNat < 32 then none
    else
      match pStrBody fuel r with
      | some (cs, rest) => some (c :: cs, rest)
      | none => none

/-- Numeric value of a list of decimal digit characters. -/
def natOfDigits (ds : List Char) : Nat :=
  ds.foldl (fun a c => 10 * a + (c.toNat - 48)) 0

/-- Parse an integer numeral (optional minus sign, one or more digits). -/
def pNum : List Char → Option (Json × List Char)
  | [] => none
  | c :: r =>
    if c = '-' then
      let ds := r.takeWhile Char.isDigit
      if ds = [] then none
      else some (.num (-(natOfDigits ds : Int)), r.dropWhile Char.isDigit)
    else
      let ds := (c :: r).takeWhile Char.isDigit
      if ds = [] then none
      else some (.num (natOfDigits ds : Int), (c :: r).dropWhile Char.isDigit)

mutual
/-- Parse one JSON value, returning it and the unconsumed remainder. -/
def pVal : Nat → List Char → Option (Json × List Char)
  | 0, _ => none
  | fuel + 1, l =>
    match skipWs l with
    | [] => none
    | c :: r =>
      if c = '"' then
        match pStrBody (r.length + 1) r with
        | some (cs, rest) => some (.str (String.mk cs), rest)
        | none => none
      else if c = '[' then
        match skipWs r with
        | [] => none
        | c' :: r' =>
          if c' = ']' then some (.arr [], r')
          else
            match pElems fuel (c' :: r') with
            | some (es, rest) => some (.arr es, rest)
            | none => none
      else if c = '{' then
        match skipWs r with
        | [] => none
        | c' :: r' =>
          if c' = '}' then some (.obj [], r')
          else
            match pFields fuel (c' :: r') with
            | some (fs, rest) => some (.obj fs, rest)
            | none => none
      else if c = 'n' then
        match r with
        | 'u' :: 'l' :: 'l' :: r' => some (.null, r')
        | _ => none
      else if c = 't' then
        match r with
        | 'r' :: 'u' :: 'e' :: r' => some (.bool true, r')
        | _ => none
      else if c = 'f' then
        match r with
        | 'a' :: 'l' :: 's' :: 'e' :: r' => some (.bool false, r')
        | _ => none
      else if c = '-' ∨ c.isDigit then pNum (c :: r)
      else none

/-- Parse the elements of a non-empty array (after `[`), consuming the
closing `]`. -/
def pElems : Nat → List Char → Option (List Json × List Char)
  | 0, _ => none
  | fuel + 1, l =>
    match pVal fuel l with
    | none => none
    | some (v, r) =>
      match skipWs r with
      | [] => none
      | c :: r' =>
        if c = ',' then
          match pElems fuel r' with
          | some (es, rest) => some (v :: es, rest)
          | none => none
        else if c = ']' then some ([v], r')
        else none

/-- Parse the fields of a non-empty object (after `{`), consuming the
closing `}`. -/
def pFields : Nat → List Char → Option (List (String × Json) × List Char)
  | 0, _ => none
  | fuel + 1, l =>
    match skipWs l with
    | '"' :: r =>
      match pStrBody (r.length + 1) r with
      | none => none
      | some (kcs, r1) =>
        match skipWs r1 with
        | ':' :: r2 =>
          match pVal fuel r2 with
          | none => none
          | some (v, r3) =>
            match skipWs r3 with
            | [] => none
            | c :: r4 =>
              if c = ',' then
                match pFields fuel r4 with
                | some (fs, rest) => some ((String.mk kcs, v) :: fs, rest)
                | none => none
              else if c = '}' then some ([(String.mk kcs, v)], r4)
              else none
        | _ => none
    | _ => none
end

/-- Model of `json.loads`: parse a whole string as one JSON document;
anything but trailing whitespace after the value is an error ("Extra
data"), as is any failure of the grammar. -/
def json_loads (s : String) : Option Json :=
  match pVal (s.length + 1) s.data with
  | some (v, rest) => if skipWs rest = [] then some v else none
  | none => none

/-! ## Structural recovery: model of `safe_json_loads` (`llm_extractor.py`)

```python
def safe_json_loads(response_text: str):
    try:
        return json.loads(response_text)
    except json.JSONDecodeError:
        match = re.search(r"\{.*\}", response_text, re.DOTALL)
        if not match:
            raise ValueError("No JSON object found in response")
        cleaned = match.group(0)
        cleaned = re.sub(r"//.*", "", cleaned)
        cleaned = re.sub(r",(\s*[\]}])", r"\1", cleaned)
        try:
            return json.loads(cleaned)
        except json.JSONDecodeError:
            if not cleaned.strip().endswith("}"):
                cleaned += "}"
            if cleaned.count("[") > cleaned.count("]"):
                cleaned += "]"
            return json.loads(cleaned)
```
-/

/-- Whitespace characters of the regex class `\s` and of `str.strip`
(ASCII range: space, tab, newline, carriage return, form feed, vertical
tab). -/
def isPyWs (c : Char) : Bool :=
  c = ' ' || c = '\t' || c = '\n' || c = '\r' || c = Char.ofNat 12 || c = Char.ofNat 11

/-- Model of `re.search(r"\{.*\}", text, re.DOTALL)`: the greedy span from
the first `{` to the last `}`, if one exists. -/
def extract_braces (l : List Char) : Option (List Char) :=
  match l.dropWhile (fun c => c ≠ '{') with
  | [] => none
  | c :: rest =>
    if '}' ∈ rest then
      some (c :: ((rest.reverse.dropWhile (fun c => c ≠ '}')).reverse))
    else none

mutual
/-- Model of `re.sub(r"//.*", "", s)`: delete every `//` and the
characters following it up to (excluding) the next newline. -/
def strip_comments : List Char → List Char
  | [] => []
  | '/' :: '/' :: r => inComment r
  | c :: r => c :: strip_comments r

/-- Inside a `//` comment: discard characters up to the next newline. -/
def inComment : List Char → List Char
  | [] => []
  | c :: r => if c = '\n' then '\n' :: strip_comments r else inComment r
end

/-- Lookahead for the regex `,(\s*[\]}])`: true when the input is
whitespace followed by a closing `]` or `}`. -/
def closesAfterWs : List Char → Bool
  | [] => false
  | c :: r =>
    if c = ']' ∨ c = '}' then true
    else if isPyWs c then closesAfterWs r
    else false

/-- Model of `re.sub(r",(\s*[\]}])", r"\1", s)`: delete every comma that
is followed by (only) whitespace and then a closing `]` or `}`.  The
captured whitespace and bracket are kept; since neither whitespace nor a
bracket can start another match, this left-to-right scan produces the
same string as the regex substitution. -/
def remove_trailing_commas : List Char → List Char
  | [] => []
  | c :: r =>
    if c = ',' ∧ closesAfterWs r then remove_trailing_commas r
    else c :: remove_trailing_commas r

/-- Model of `str.strip()` restricted to the ASCII whitespace actually
exercised here. -/
def pyStrip (l : List Char) : List Char :=
  ((l.dropWhile isPyWs).reverse.dropWhile isPyWs).reverse

/-- Model of `safe_json_loads` (`llm_extractor.py` lines 54-76): direct
parse, then greedy brace-span extraction, comment stripping, trailing
comma removal, re-parse, best-effort auto-closing, final re-parse. -/
def safe_json_loads (s : String) : Except PyError Json :=
  match json_loads s with
  | some v => .ok v
  | none =>
    match extract_braces s.data with
    | none => .error (.malformedOutput "No JSON object found in response")
    | some cand =>
      let cleaned := remove_trailing_commas (strip_comments cand)
      match json_loads (String.mk cleaned) with
      | some v => .ok v
      | none =>
        let c2 := if (pyStrip cleaned).getLast? = some '}' then cleaned
                  else cleaned ++ ['}']
        let c3 := if c2.count '[' > c2.count ']' then c2 ++ [']'] else c2
        match json_loads (String.mk c3) with
        | some v => .ok v
        | none => .error (.jsonDecodeError "Expecting value")

/-! ## Python dict and value helpers -/

/-- Model of Python dict assignment `d[k] = v` on an object's fields:
replace the first binding of `k` in place, or append a new binding. -/
def setKey : List (String × Json) → String → Json → List (String × Json)
  | [], k, v => [(k, v)]
  | (k', v') :: fs, k, v =>
    if k' = k then (k, v) :: fs else (k', v') :: setKey fs k v

/-- Model of `d.get(k, default)`. -/
def getD (fs : List (String × Json)) (k : String) (d : Json) : Json :=
  (List.lookup k fs).getD d

/-- Whether a recovered value is a keyed mapping (Python dict). -/
def isObj : Json → Bool
  | .obj _ => true
  | _ => false

mutual
/-- Python `repr` of a JSON value (used for `str(message)` in the custom
adapter): single-quoted strings, `True`/`False`/`None`.  Quote escaping
inside strings is not modelled; no verified property depends on it. -/
def pyRepr : Json → String
  | .null => "None"
  | .bool true => "True"
  | .bool false => "False"
  | .num n => String.mk (dumpInt n)
  | .str s => "'" ++ s ++ "'"
  | .arr [] => "[]"
  | .arr (v :: vs) => "[" ++ pyReprElems (v :: vs) ++ "]"
  | .obj [] => "\x7b\x7d"
  | .obj (f :: fs) => "\x7b" ++ pyReprFields (f :: fs) ++ "\x7d"

/-- `repr` of list elements, comma separated. -/
def pyReprElems : List Json → String
  | [] => ""
  | [v] => pyRepr v
  | v :: v' :: vs => pyRepr v ++ ", " ++ pyReprElems (v' :: vs)

/-- `repr` of dict items, comma separated. -/
def pyReprFields : List (String × Json) → String
  | [] => ""
  | [(k, v)] => "'" ++ k ++ "': " ++ pyRepr v
  | (k, v) :: f' :: fs => "'" ++ k ++ "': " ++ pyRepr v ++ ", " ++ pyReprFields (f' :: fs)
end

/-- Model of Python `str(x)` for a JSON value. -/
def pyStr : Json → String
  | .str s => s
  | v => pyRepr v

/-- Python `len(x)` on a JSON value. -/
def pyLen : Json → Except PyError Nat
  | .arr l => .ok l.length
  | .str s => .ok s.length
  | .obj fs => .ok fs.length
  | _ => .error (.typeError "object has no len")

/-- Python `x[0]` on a JSON value. -/
def pyIndex0 : Json → Except PyError Json
  | .arr (v :: _) => .ok v
  | .arr [] => .error (.indexError "list index out of range")
  | .str s =>
    match s.data with
    | c :: _ => .ok (.str (String.mk [c]))
    | [] => .error (.indexError "string index out of range")
  | .obj _ => .error (.keyError "0")
  | _ => .error (.typeError "object is not subscriptable")

/-- Python `x[k]` (string subscript) on a JSON value. -/
def pyGetKey (v : Json) (k : String) : Except PyError Json :=
  match v with
  | .obj fs =>
    match List.lookup k fs with
    | some x => .ok x
    | none => .error (.keyError k)
  | _ => .error (.typeError "indices must be integers")

/-- `for x in v` (Python iteration): lists yield elements, strings yield
one-character strings, dicts yield their keys; other values raise
`TypeError`. -/
def pyIter : Json → Except PyError (List Json)
  | .arr l => .ok l
  | .str s => .ok (s.data.map (fun c => .str (String.mk [c])))
  | .obj fs => .ok (fs.map (fun f => .str f.1))
  | .bool _ => .error (.typeError "object is not iterable")
  | .num _ => .error (.typeError "object is not iterable")
  | .null => .error (.typeError "object is not iterable")

/-- Python item assignment `flow[k] = v` as an operation on a value
(raises `TypeError` on a non-mapping). -/
def setItem (v : Json) (k : String) (x : Json) : Except PyError Json :=
  match v with
  | .obj fs => .ok (.obj (setKey fs k x))
  | _ => .error (.typeError "does not support item assignment")

/-! ## Extraction pipeline: model of `FlowExtractor` (`llm_extractor.py`) -/

/-- Configuration of a `FlowExtractor` (the fields of `self` used by the
modelled methods).  `temperature` (a float in the source) is kept opaque
as an integer-valued parameter: no verified property inspects its
value. -/
structure ExtractorConfig where
  model : String
  prompt_template : String
  temperature : Int
  max_tokens : Nat
  api_key : Option String
  api_base_url : Option String
  deriving DecidableEq

/-- `__init__` for `provider="ollama"` (`llm_extractor.py` 191-198): no
key required (`"none"` default), `api_base_url` defaulted to the local
chat endpoint when the argument is absent. -/
def init_ollama (api_key : Option String) (mdl : String) (temperature : Int)
    (max_tokens : Nat) (api_base_url : Option String) (tmpl : String) : ExtractorConfig :=
  { model := mdl, prompt_template := tmpl, temperature := temperature,
    max_tokens := max_tokens, api_key := some (api_key.getD "none"),
    api_base_url := some (api_base_url.getD "http://localhost:11434/v1/chat/completions") }

/-- The HTTP request issued by `_call_ollama_api` (`llm_extractor.py`
254-270). -/
structure OllamaRequest where
  url : String
  model : String
  prompt : String
  stream : Bool
  temperature : Int
  num_predict : Nat
  deriving DecidableEq

/-- Model of `_call_ollama_api`: the request it posts.  The URL is the
hardcoded literal from the source, not `self.api_base_url`. -/
def call_ollama_api (cfg : ExtractorConfig) (prompt : String) : OllamaRequest :=
  { url := "http://localhost:11434/api/generate", model := cfg.model,
    prompt := prompt, stream := false, temperature := cfg.temperature,
    num_predict := cfg.max_tokens }

/-- Prompt construction in `extract_process_flow` (302-313): truncate the
content to 20000 characters, then concatenate template, document header
and content. -/
def mkPrompt (cfg : ExtractorConfig) (document_content document_name : String) : String :=
  let content := if document_content.length > 20000
                 then document_content.take 20000 else document_content
  cfg.prompt_template ++ "\n\n--- Document: " ++ document_name ++ " ---\n\n" ++ content

/-- Model of `extract_process_flow` (272-347).  The provider call is the
Transport collaborator, abstracted as the `send` oracle (the adapters'
HTTP mechanics are out of the modelled core).  After recovery the
pipeline assigns `source_document` and `extraction_model`; on a
non-mapping recovered value this item assignment raises `TypeError`.  A
`JSONDecodeError` escaping recovery is re-raised as
`ValueError("Invalid JSON response from LLM: ...")`; every other error is
logged and re-raised unchanged. -/
def extract_process_flow (cfg : ExtractorConfig) (send : String → Except PyError String)
    (document_content document_name : String) : Except PyError Json :=
  match send (mkPrompt cfg document_content document_name) with
  | .error e => .error e
  | .ok response_text =>
    match safe_json_loads response_text with
    | .error (.jsonDecodeError m) =>
      .error (.invalidJsonResponse ("Invalid JSON response from LLM: " ++ m))
    | .error e => .error e
    | .ok flow =>
      match flow with
      | .obj fields =>
        .ok (.obj (setKey (setKey fields "source_document" (.str document_name))
          "extraction_model" (.str cfg.model)))
      | _ => .error (.typeError "does not support item assignment")

/-- `"".join(...)` over already-materialized values: a non-string item
raises `TypeError`. -/
def strJoin : List Json → Except PyError String
  | [] => .ok ""
  | .str s :: r => (strJoin r).map (fun t => s ++ t)
  | _ :: _ => .error (.typeError "sequence item: expected str instance")

/-- `"".join([item.get("text", "") for item in blocks])`: the list
comprehension is evaluated first (a non-mapping item raises
`AttributeError`), then the join. -/
def joinTexts (items : List Json) : Except PyError String :=
  match items.mapM (fun it =>
    match it with
    | .obj fs => Except.ok (getD fs "text" (.str ""))
    | _ => Except.error (PyError.attributeError "object has no attribute get")) with
  | .error e => .error e
  | .ok vals => strJoin vals

/-- Generic fallbacks of `_call_custom_api` (468-484): `content` (string
as-is, list-of-blocks joined), then `text`, then `message`
(`message["content"]` for a mapping with that key, else `str(message)`),
then the whole payload re-serialized with `json.dumps` (with a logged
warning). -/
def customFallback (d : List (String × Json)) : Except PyError Json :=
  match List.lookup "content" d with
  | some (.arr items) => (joinTexts items).map .str
  | some c => .ok c
  | none =>
    match List.lookup "text" d with
    | some t => .ok t
    | none =>
      match List.lookup "message" d with
      | some (.obj mfs) =>
        match List.lookup "content" mfs with
        | some c => .ok c
        | none => .ok (.str (pyStr (.obj mfs)))
      | some m => .ok (.str (pyStr m))
      | none => .ok (.str (dumps (.obj d)))

/-- Response-shape handling of `_call_custom_api` (461-484) on the parsed
JSON payload object: a non-empty `choices` list is consumed as
`choices[0]["message"]["content"]`; otherwise the generic fallbacks
apply. -/
def extract_response_text (d : List (String × Json)) : Except PyError Json :=
  match List.lookup "choices" d with
  | some choices =>
    match pyLen choices with
    | .error e => .error e
    | .ok (_ + 1) =>
      match pyIndex0 choices with
      | .error e => .error e
      | .ok c0 =>
        match pyGetKey c0 "message" with
        | .error e => .error e
        | .ok m => pyGetKey m "content"
    | .ok 0 => customFallback d
  | none => customFallback d

/-- The `choices`-shape guard of `_call_custom_api` fails: the key is
absent, or its value is an empty list (`len(...) > 0` is false). -/
def noChoices (d : List (String × Json)) : Prop :=
  List.lookup "choices" d = none ∨ List.lookup "choices" d = some (.arr [])

/-- A document record from the Document Source collaborator. -/
structure DocumentInput where
  content : String
  name : String
  path : String
  relative_path : String

/-- One document's pipeline run inside `extract_from_documents`
(514-523): extraction plus attachment of `document_path` and
`document_relative_path`. -/
def extract_one (cfg : ExtractorConfig) (send : String → Except PyError String)
    (doc : DocumentInput) : Except PyError Json :=
  match extract_process_flow cfg send doc.content doc.name with
  | .error e => .error e
  | .ok flow =>
    match setItem flow "document_path" (.str doc.path) with
    | .error e => .error e
    | .ok f1 => setItem f1 "document_relative_path" (.str doc.relative_path)

/-- Model of `extract_from_documents` (493-528): per-document
try/except; a failing document is logged and skipped and the loop
continues with the next one. -/
def extract_from_documents (cfg : ExtractorConfig)
    (send : String → Except PyError String) : List DocumentInput → List Json
  | [] => []
  | doc :: rest =>
    match extract_one cfg send doc with
    | .ok flow => flow :: extract_from_documents cfg send rest
    | .error _ => extract_from_documents cfg send rest

/-! ## Persistence: model of `FlowDatabase` (`flow_database.py`)

The class holds one `sqlite3` connection with the default (deferred)
isolation level: the first `INSERT` opens an implicit transaction, and
only `conn.commit()` publishes it.  `insert_process_flow` executes the
parent `INSERT`, the child `INSERT`s, then a single `commit()`; it has no
rollback handler, so on an exception the rows already executed stay
pending on the connection (visible to same-connection reads, and
published by the next successful `commit()`). -/

/-- A value bound into a SQLite parameter. -/
inductive SqlValue where
  | text (s : String)
  | int (n : Int)
  | null
  deriving DecidableEq

/-- Binding a Python value as a SQLite parameter: strings, ints, bools
and `None` are supported; lists and dicts raise
`sqlite3.InterfaceError`. -/
def bindJson : Json → Except PyError SqlValue
  | .str s => .ok (.text s)
  | .num n => .ok (.int n)
  | .bool b => .ok (.int (if b then 1 else 0))
  | .null => .ok .null
  | .arr _ => .error (.interfaceError "type is not supported")
  | .obj _ => .error (.interfaceError "type is not supported")

/-- Row of `process_flows`. -/
structure FlowRow where
  id : Nat
  process_name : SqlValue
  process_description : SqlValue
  source_document : SqlValue
  document_path : SqlValue
  document_relative_path : SqlValue
  extraction_model : SqlValue
  raw_data : String
  deriving DecidableEq

/-- Row of `process_steps` (the table's own autoincrement id is not
modelled; no verified property reads it). -/
structure StepRow where
  process_flow_id : Nat
  step_number : SqlValue
  step_name : SqlValue
  description : SqlValue
  responsible_role : SqlValue
  inputs : String
  outputs : String
  decision_points : String
  next_steps : String
  deriving DecidableEq

/-- Row of `process_roles`, `process_tools` or
`compliance_requirements`. -/
structure ChildRow where
  process_flow_id : Nat
  value : SqlValue
  deriving DecidableEq

/-- The five tables created by `_create_tables`. -/
structure Tables where
  process_flows : List FlowRow
  process_steps : List StepRow
  process_roles : List ChildRow
  process_tools : List ChildRow
  compliance_requirements : List ChildRow
  deriving DecidableEq

def Tables.empty : Tables := ⟨[], [], [], [], []⟩

def Tables.append (a b : Tables) : Tables :=
  ⟨a.process_flows ++ b.process_flows, a.process_steps ++ b.process_steps,
   a.process_roles ++ b.process_roles, a.process_tools ++ b.process_tools,
   a.compliance_requirements ++ b.compliance_requirements⟩

/-- State of the `FlowDatabase` connection: committed rows, rows written
by the open implicit transaction but not yet committed, and the
`process_flows` autoincrement counter. -/
structure DBState where
  committed : Tables
  pending : Tables
  next_flow_id : Nat
  deriving DecidableEq

def DBState.empty : DBState := ⟨Tables.empty, Tables.empty, 1⟩

/-- Rows observable through the connection: a transaction sees its own
uncommitted writes. -/
def DBState.visible (st : DBState) : Tables := st.committed.append st.pending

/-- Every stored parent row has an id below the autoincrement counter
(an invariant of every reachable state). -/
def DBState.wf (st : DBState) : Bool :=
  st.visible.process_flows.all (fun r => r.id < st.next_flow_id)

/-- `step.get(...)` plus the `INSERT INTO process_steps` parameter binding
(`flow_database.py` 152-168); a non-mapping step raises `AttributeError`
at `step.get`. -/
def mkStepRow (pfid : Nat) (step : Json) : Except PyError StepRow :=
  match step with
  | .obj fs => do
    let sn ← bindJson (getD fs "step_number" (.num 0))
    let nm ← bindJson (getD fs "step_name" (.str ""))
    let ds ← bindJson (getD fs "description" (.str ""))
    let rr ← bindJson (getD fs "responsible_role" (.str ""))
    Except.ok
      { process_flow_id := pfid
        step_number := sn
        step_name := nm
        description := ds
        responsible_role := rr
        inputs := dumps (getD fs "inputs" (.arr []))
        outputs := dumps (getD fs "outputs" (.arr []))
        decision_points := dumps (getD fs "decision_points" (.arr []))
        next_steps := dumps (getD fs "next_steps" (.arr [])) }
  | _ => .error (.attributeError "object has no attribute get")

/-- Execute the step `INSERT`s one at a time; on failure the statements
already executed keep their rows in the transaction. -/
def insertSteps (pfid : Nat) : List Json → Tables → Tables × Option PyError
  | [], t => (t, none)
  | step :: rest, t =>
    match mkStepRow pfid step with
    | .error e => (t, some e)
    | .ok row =>
      insertSteps pfid rest { t with process_steps := t.process_steps ++ [row] }

/-- Execute the `INSERT`s of one single-value child table (roles, tools
or compliance requirements). -/
def insertChildRows (pfid : Nat) (get : Tables → List ChildRow)
    (set : Tables → List ChildRow → Tables) :
    List Json → Tables → Tables × Option PyError
  | [], t => (t, none)
  | v :: rest, t =>
    match bindJson v with
    | .error e => (t, some e)
    | .ok sv => insertChildRows pfid get set rest (set t (get t ++ [⟨pfid, sv⟩]))

/-- The child-row `INSERT`s of `insert_process_flow` (150-192): step
rows, role rows, tool rows, compliance rows, in source order, stopping at
the first exception (already-executed statements keep their rows). -/
def insertChildren (pfid : Nat) (fs : List (String × Json)) (t0 : Tables) :
    Tables × Option PyError :=
  match pyIter (getD fs "steps" (.arr [])) with
  | .error e => (t0, some e)
  | .ok steps =>
    match insertSteps pfid steps t0 with
    | (t1, some e) => (t1, some e)
    | (t1, none) =>
      match pyIter (getD fs "roles" (.arr [])) with
      | .error e => (t1, some e)
      | .ok roles =>
        match insertChildRows pfid (fun t => t.process_roles)
            (fun t l => { t with process_roles := l }) roles t1 with
        | (t2, some e) => (t2, some e)
        | (t2, none) =>
          match pyIter (getD fs "tools_systems" (.arr [])) with
          | .error e => (t2, some e)
          | .ok tools =>
            match insertChildRows pfid (fun t => t.process_tools)
                (fun t l => { t with process_tools := l }) tools t2 with
            | (t3, some e) => (t3, some e)
            | (t3, none) =>
              match pyIter (getD fs "compliance_requirements" (.arr [])) with
              | .error e => (t3, some e)
              | .ok reqs =>
                insertChildRows pfid (fun t => t.compliance_requirements)
                  (fun t l => { t with compliance_requirements := l }) reqs t3

/-- Parameter binding of the parent `INSERT INTO process_flows`
(`flow_database.py` 131-146): the six scalar columns, via `flow.get`
defaults. -/
def bindParentRow (fs : List (String × Json)) :
    Except PyError (SqlValue × SqlValue × SqlValue × SqlValue × SqlValue × SqlValue) := do
  let pn ← bindJson (getD fs "process_name" (.str ""))
  let pd ← bindJson (getD fs "process_description" (.str ""))
  let sd ← bindJson (getD fs "source_document" (.str ""))
  let dp ← bindJson (getD fs "document_path" (.str ""))
  let dr ← bindJson (getD fs "document_relative_path" (.str ""))
  let em ← bindJson (getD fs "extraction_model" (.str ""))
  Except.ok (pn, pd, sd, dp, dr, em)

/-- Model of `FlowDatabase.insert_process_flow` (119-196): parent row,
the child rows, then one `conn.commit()`.  On an exception the function
returns the error and the connection state with the partial writes still
pending — the source has no rollback. -/
def insert_process_flow (st : DBState) (flow : Json) : Except PyError Nat × DBState :=
  match flow with
  | .obj fs =>
    match bindParentRow fs with
    | .error e => (.error e, st)
    | .ok (pn, pd, sd, dp, dr, em) =>
      match insertChildren st.next_flow_id fs
          { st.pending with process_flows := st.pending.process_flows ++
              [⟨st.next_flow_id, pn, pd, sd, dp, dr, em, dumps flow⟩] } with
      | (t', some e) => (.error e, ⟨st.committed, t', st.next_flow_id + 1⟩)
      | (t', none) =>
        (.ok st.next_flow_id, ⟨st.committed.append t', Tables.empty, st.next_flow_id + 1⟩)
  | _ => (.error (.attributeError "object has no attribute get"), st)

/-- Model of `insert_multiple` (198-216): per-flow try/except, failures
logged and skipped, processing continues. -/
def insert_multiple (st : DBState) : List Json → List Nat × DBState
  | [] => ([], st)
  | flow :: rest =>
    match insert_process_flow st flow with
    | (.ok pfid, st') =>
      let (ids, st'') := insert_multiple st' rest
      (pfid :: ids, st'')
    | (.error _, st') => insert_multiple st' rest

/-- Model of `get_process_flow` (218-238): find the parent row by id
(through the same connection, so pending rows are visible) and re-parse
its serialized `raw_data`. -/
def get_process_flow (st : DBState) (pfid : Nat) : Option Json :=
  match st.visible.process_flows.find? (fun r => r.id == pfid) with
  | none => none
  | some row => json_loads row.raw_data

/-! ## Concrete fixtures used by witnesses and counterexamples -/

/-- Projection of an `Except` to its error, if any. -/
def errOf : Except PyError α → Option PyError
  | .ok _ => none
  | .error e => some e

/-- Whether an extraction result is the recovery engine's
`MalformedOutputError` (the `ValueError` raised in `safe_json_loads`). -/
def isMalformedOutputB : Except PyError Json → Bool
  | .error (.malformedOutput _) => true
  | _ => false

/-- A concrete extractor configuration. -/
def testCfg : ExtractorConfig :=
  { model := "gpt-4o-mini", prompt_template := "T", temperature := 0,
    max_tokens := 2000, api_key := some "k", api_base_url := none }

/-- A transport oracle whose response spoofs the pipeline metadata
fields. -/
def spoofSend : String → Except PyError String := fun _ =>
  .ok "\x7b\"process_name\": \"P\", \"source_document\": \"SPOOF\", \"extraction_model\": \"SPOOF\"\x7d"

/-- A transport oracle answering with a JSON array (a non-mapping
top-level value). -/
def arraySend : String → Except PyError String := fun _ => .ok "[1, 2]"

/-- A flow whose `steps` list contains a non-mapping entry: its parent
`INSERT` succeeds and its first step `INSERT` raises. -/
def badFlow : Json := .obj [("process_name", .str "BadFlow"), ("steps", .arr [.str "oops"])]

/-- A well-formed flow. -/
def goodFlow : Json := .obj [("process_name", .str "Good")]

/-- A flow with a dangling `next_steps` reference (step 99 does not
exist). -/
def testFlow : Json :=
  .obj [("process_name", .str "P"),
    ("steps", .arr [.obj [("step_number", .num 1), ("next_steps", .arr [.num 99])]])]

/-! ## Round-trip: `json_loads` inverts `dumps`

This is the statement behind the spec's persist-then-reload property: the
mapper stores `json.dumps(flow)` and the reader returns
`json.loads(raw_data)`. -/

theorem skipWs_cons {c : Char} (r : List Char) (h : isJsonWs c = false) :
    skipWs (c :: r) = c :: r := by
  simp [skipWs, h]

theorem digit_facts : ∀ k, k < 10 →
    (digitChar k).isDigit = true ∧ (digitChar k).toNat = 48 + k := by decide

theorem hexVal_hexDigitChar : ∀ k, k < 16 → hexVal (hexDigitChar k) = some k := by decide

/-- A decimal digit character is none of the parser's dispatch characters
and is not JSON whitespace. -/
theorem digit_ne {c : Char} (h : c.isDigit = true) :
    c ≠ '-' ∧ c ≠ '"' ∧ c ≠ '[' ∧ c ≠ '{' ∧ c ≠ 'n' ∧ c ≠ 't' ∧ c ≠ 'f' ∧
      c ≠ ']' ∧ c ≠ '}' ∧ c ≠ ',' ∧ isJsonWs c = false := by
  refine ⟨?_, ?_, ?_, ?_, ?_, ?_, ?_, ?_, ?_, ?_, ?_⟩ <;>
    first
      | (intro h'; subst h'; exact absurd h (by decide))
      | (rcases hws : isJsonWs c with _ | _
         · rfl
         · exfalso
           have hmem : c ∈ [' ', '\t', '\n', '\r'] := by
             simp only [isJsonWs, Bool.or_eq_true, decide_eq_true_eq] at hws
             simpa [or_assoc] using hws
           fin_cases hmem <;> exact absurd h (by decide))

theorem toDigitsAux_spec :
    ∀ fuel n, n < fuel →
      (toDigitsAux fuel n ≠ [] ∧ ∀ c ∈ toDigitsAux fuel n, c.isDigit = true) ∧
        natOfDigits (toDigitsAux fuel n) = n := by
  intro fuel
  induction fuel with
  | zero => intro n h; omega
  | succ f ih =>
    intro n hn
    by_cases h10 : n < 10
    · refine ⟨⟨by simp [toDigitsAux, h10], ?_⟩, ?_⟩
      · intro c hc
        simp [toDigitsAux, h10] at hc
        subst hc
        exact (digit_facts n h10).1
      · simp [toDigitsAux, h10, natOfDigits, (digit_facts n h10).2]
    · have hd : n / 10 < f := by omega
      obtain ⟨⟨hne, hdig⟩, hval⟩ := ih (n / 10) hd
      rw [show toDigitsAux (f + 1) n =
            toDigitsAux f (n / 10) ++ [digitChar (n % 10)] by simp [toDigitsAux, h10]]
      refine ⟨⟨by simp [hne], ?_⟩, ?_⟩
      · intro c hc
        rcases List.mem_append.mp hc with h1 | h2
        · exact hdig c h1
        · simp at h2
          subst h2
          exact (digit_facts _ (Nat.mod_lt _ (by omega))).1
      · have hmod := (digit_facts (n % 10) (Nat.mod_lt _ (by omega))).2
        simp [natOfDigits, List.foldl_append] at hval ⊢
        rw [hval, hmod]
        omega

theorem toDigitsNat_spec (n : Nat) :
    toDigitsNat n ≠ [] ∧ ∀ c ∈ toDigitsNat n, c.isDigit = true :=
  (toDigitsAux_spec (n + 1) n (by omega)).1

theorem natOfDigits_toDigitsNat (n : Nat) : natOfDigits (toDigitsNat n) = n :=
  (toDigitsAux_spec (n + 1) n (by omega)).2

/-- `takeWhile` and `dropWhile` split an all-satisfying prefix off exactly
when the first character of the remainder fails the predicate. -/
theorem takeWhile_dropWhile_all {p : Char → Bool} {t r : List Char}
    (ht : ∀ c ∈ t, p c = true) (hr : ∀ c cs, r = c :: cs → p c = false) :
    (t ++ r).takeWhile p = t ∧ (t ++ r).dropWhile p = r := by
  induction t with
  | nil =>
    cases r with
    | nil => simp
    | cons c cs => simp [List.takeWhile, List.dropWhile, hr c cs rfl]
  | cons a t' ihc =>
    have ha : p a = true := ht a (by simp)
    have ih' := ihc (fun c hc => ht c (by simp [hc]))
    simp [List.takeWhile, List.dropWhile, ha, ih'.1, ih'.2]

/-- The remainder after a serialized value never begins with a digit
(it is empty or begins with a separator or closing bracket). -/
def sepOk : List Char → Bool
  | [] => true
  | c :: _ => !c.isDigit

theorem pNum_dumpInt (n : Int) (rest : List Char) (hsep : sepOk rest = true) :
    pNum (dumpInt n ++ rest) = some (.num n, rest) := by
  have hrest : ∀ c cs, rest = c :: cs → c.isDigit = false := by
    intro c cs h
    subst h
    simpa [sepOk] using hsep
  by_cases hn : n < 0
  · obtain ⟨hne, hdig⟩ := toDigitsNat_spec n.natAbs
    obtain ⟨htake, hdrop⟩ := takeWhile_dropWhile_all hdig hrest
    simp only [dumpInt, if_pos hn, List.cons_append, pNum, eq_self_iff_true, if_true,
      htake, hdrop, if_neg hne, natOfDigits_toDigitsNat]
    rw [show -((n.natAbs : ℤ)) = n by omega]
  · obtain ⟨hne, hdig⟩ := toDigitsNat_spec n.toNat
    obtain ⟨c, cs, hcons⟩ : ∃ c cs, toDigitsNat n.toNat = c :: cs := by
      cases h : toDigitsNat n.toNat with
      | nil => exact absurd h hne
      | cons c cs => exact ⟨c, cs, rfl⟩
    have hc : c.isDigit = true := hdig c (by rw [hcons]; simp)
    obtain ⟨htake, hdrop⟩ := takeWhile_dropWhile_all hdig hrest
    rw [hcons] at htake hdrop
    simp only [dumpInt, if_neg hn, hcons, List.cons_append, pNum, if_neg (digit_ne hc).1]
    rw [show c :: (cs ++ rest) = (c :: cs) ++ rest from rfl, htake, hdrop]
    rw [if_neg (by simp), ← hcons, natOfDigits_toDigitsNat]
    rw [show ((n.toNat : ℤ)) = n by omega]

theorem pStrBody_quote (fuel : Nat) (r : List Char) :
    pStrBody (fuel + 1) ('"' :: r) = some ([], r) := rfl

theorem pStrBody_plain {c : Char} (fuel : Nat) (r : List Char) (h1 : c ≠ '"')
    (h2 : c ≠ '\\') (h3 : ¬ c.toNat < 32) :
    pStrBody (fuel + 1) (c :: r) =
      match pStrBody fuel r with
      | some (cs, rest) => some (c :: cs, rest)
      | none => none := by
  simp [pStrBody, h1, h2, h3]

theorem pStrBody_esc {e ec : Char} (fuel : Nat) (r : List Char) (he : e ≠ 'u')
    (hd : escDecode e = some ec) :
    pStrBody (fuel + 1) ('\\' :: e :: r) =
      match pStrBody fuel r with
      | some (cs, rest) => some (ec :: cs, rest)
      | none => none := by
  simp [pStrBody, he, hd]

theorem pStrBody_u {h1 h2 h3 h4 : Char} (fuel : Nat) (r : List Char) {n : Nat}
    (hx : hex4 h1 h2 h3 h4 = some n) :
    pStrBody (fuel + 1) ('\\' :: 'u' :: h1 :: h2 :: h3 :: h4 :: r) =
      match pStrBody fuel r with
      | some (cs, rest) => some (Char.ofNat n :: cs, rest)
      | none => none := by
  simp [pStrBody, hx]

/-- Parsing a string body inverts character escaping (with any fuel
beyond the escaped length). -/
theorem pStrBody_escList (cs : List Char) :
    ∀ fuel rest, (escList cs).length < fuel →
      pStrBody fuel (escList cs ++ ('"' :: rest)) = some (cs, rest) := by
  induction cs with
  | nil =>
    intro fuel rest hf
    obtain ⟨f, rfl⟩ : ∃ f, fuel = f + 1 := ⟨fuel - 1, by omega⟩
    simpa [escList] using pStrBody_quote f rest
  | cons c cs' ih =>
    intro fuel rest hf
    obtain ⟨f, rfl⟩ : ∃ f, fuel = f + 1 := ⟨fuel - 1, by omega⟩
    by_cases h1 : c = '"'
    · subst h1
      have hsh : escList ('"' :: cs') = '\\' :: '"' :: escList cs' := by
        simp [escList, escChar]
      have hlen : (escList cs').length < f := by
        rw [hsh] at hf
        simp at hf
        omega
      rw [show escList ('"' :: cs') ++ ('"' :: rest) =
            '\\' :: '"' :: (escList cs' ++ ('"' :: rest)) by rw [hsh]; simp]
      rw [@pStrBody_esc '"' '"' f _ (by decide) (by decide), ih f rest hlen]
    · by_cases h2 : c = '\\'
      · subst h2
        have hsh : escList ('\\' :: cs') = '\\' :: '\\' :: escList cs' := by
          simp [escList, escChar]
        have hlen : (escList cs').length < f := by
          rw [hsh] at hf
          simp at hf
          omega
        rw [show escList ('\\' :: cs') ++ ('"' :: rest) =
              '\\' :: '\\' :: (escList cs' ++ ('"' :: rest)) by rw [hsh]; simp]
        rw [@pStrBody_esc '\\' '\\' f _ (by decide) (by decide), ih f rest hlen]
      · by_cases h3 : c.toNat < 32
        · have hx : hex4 '0' '0' (hexDigitChar (c.toNat / 16)) (hexDigitChar (c.toNat % 16)) =
              some c.toNat := by
            have e1 := hexVal_hexDigitChar (c.toNat / 16) (by omega)
            have e2 := hexVal_hexDigitChar (c.toNat % 16) (by omega)
            simp [hex4, e1, e2, show hexVal '0' = some 0 from by decide]
            omega
          have hsh : escList (c :: cs') =
              '\\' :: 'u' :: '0' :: '0' :: hexDigitChar (c.toNat / 16) ::
                hexDigitChar (c.toNat % 16) :: escList cs' := by
            simp [escList, escChar, h1, h2, h3]
          have hlen : (escList cs').length < f := by
            rw [hsh] at hf
            simp at hf
            omega
          rw [show escList (c :: cs') ++ ('"' :: rest) =
                '\\' :: 'u' :: '0' :: '0' :: hexDigitChar (c.toNat / 16) ::
                  hexDigitChar (c.toNat % 16) :: (escList cs' ++ ('"' :: rest)) by
              rw [hsh]; simp]
          rw [pStrBody_u f _ hx, ih f rest hlen, Char.ofNat_toNat]
        · have hsh : escList (c :: cs') = c :: escList cs' := by
            simp [escList, escChar, h1, h2, h3]
          have hlen : (escList cs').length < f := by
            rw [hsh] at hf
            simp at hf
            omega
          rw [show escList (c :: cs') ++ ('"' :: rest) =
                c :: (escList cs' ++ ('"' :: rest)) by rw [hsh]; simp]
          rw [pStrBody_plain f _ h1 h2 h3, ih f rest hlen]

/-- Every serialized value begins with a non-whitespace character that is
not a closing bracket. -/
theorem dumpV_head (v : Json) :
    ∃ c cs, dumpV v = c :: cs ∧ isJsonWs c = false ∧ c ≠ ']' ∧ c ≠ '}' := by
  cases v with
  | num n =>
    by_cases hn : n < 0
    · refine ⟨'-', _, by rw [show dumpV (.num n) = dumpInt n from rfl, dumpInt, if_pos hn], ?_⟩
      decide
    · obtain ⟨hne, hdig⟩ := toDigitsNat_spec n.toNat
      obtain ⟨c, cs, hcons⟩ : ∃ c cs, toDigitsNat n.toNat = c :: cs := by
        cases h : toDigitsNat n.toNat with
        | nil => exact absurd h hne
        | cons c cs => exact ⟨c, cs, rfl⟩
      have hc : c.isDigit = true := hdig c (by rw [hcons]; simp)
      have hd := digit_ne hc
      refine ⟨c, cs,
        by rw [show dumpV (.num n) = dumpInt n from rfl, dumpInt, if_neg hn, hcons], ?_, ?_, ?_⟩
      · exact hd.2.2.2.2.2.2.2.2.2.2
      · exact hd.2.2.2.2.2.2.2.1
      · exact hd.2.2.2.2.2.2.2.2.1
  | bool b => cases b <;> exact ⟨_, _, rfl, by decide⟩
  | arr l => cases l <;> exact ⟨'[', _, rfl, by decide⟩
  | obj l => cases l <;> exact ⟨'{', _, rfl, by decide⟩
  | null => exact ⟨'n', _, rfl, by decide⟩
  | str s => exact ⟨'"', _, rfl, by decide⟩


theorem pVal_succ (fuel : Nat) (l : List Char) :
    pVal (fuel + 1) l =
      (match skipWs l with
       | [] => none
       | c :: r =>
         if c = '"' then
           match pStrBody (r.length + 1) r with
           | some (cs, rest) => some (.str (String.mk cs), rest)
           | none => none
         else if c = '[' then
           match skipWs r with
           | [] => none
           | c' :: r' =>
             if c' = ']' then some (.arr [], r')
             else
               match pElems fuel (c' :: r') with
               | some (es, rest) => some (.arr es, rest)
               | none => none
         else if c = '{' then
           match skipWs r with
           | [] => none
           | c' :: r' =>
             if c' = '}' then some (.obj [], r')
             else
               match pFields fuel (c' :: r') with
               | some (fs, rest) => some (.obj fs, rest)
               | none => none
         else if c = 'n' then
           match r with
           | 'u' :: 'l' :: 'l' :: r' => some (.null, r')
           | _ => none
         else if c = 't' then
           match r with
           | 'r' :: 'u' :: 'e' :: r' => some (.bool true, r')
           | _ => none
         else if c = 'f' then
           match r with
           | 'a' :: 'l' :: 's' :: 'e' :: r' => some (.bool false, r')
           | _ => none
         else if c = '-' ∨ c.isDigit then pNum (c :: r)
         else none) := rfl

theorem pVal_num_head {c : Char} (fuel : Nat) (r : List Char)
    (hor : c = '-' ∨ c.isDigit = true) :
    pVal (fuel + 1) (c :: r) = pNum (c :: r) := by
  have hminus : ('-' : Char) ≠ '"' ∧ ('-' : Char) ≠ '[' ∧ ('-' : Char) ≠ '{' ∧
      ('-' : Char) ≠ 'n' ∧ ('-' : Char) ≠ 't' ∧ ('-' : Char) ≠ 'f' ∧
      isJsonWs '-' = false := by decide
  have hws : isJsonWs c = false := by
    rcases hor with h | h
    · subst h; exact hminus.2.2.2.2.2.2
    · exact (digit_ne h).2.2.2.2.2.2.2.2.2.2
  have h1 : c ≠ '"' := by
    rcases hor with h | h
    · subst h; exact hminus.1
    · exact (digit_ne h).2.1
  have h2 : c ≠ '[' := by
    rcases hor with h | h
    · subst h; exact hminus.2.1
    · exact (digit_ne h).2.2.1
  have h3 : c ≠ '{' := by
    rcases hor with h | h
    · subst h; exact hminus.2.2.1
    · exact (digit_ne h).2.2.2.1
  have h4 : c ≠ 'n' := by
    rcases hor with h | h
    · subst h; exact hminus.2.2.2.1
    · exact (digit_ne h).2.2.2.2.1
  have h5 : c ≠ 't' := by
    rcases hor with h | h
    · subst h; exact hminus.2.2.2.2.1
    · exact (digit_ne h).2.2.2.2.2.1
  have h6 : c ≠ 'f' := by
    rcases hor with h | h
    · subst h; exact hminus.2.2.2.2.2.1
    · exact (digit_ne h).2.2.2.2.2.2.1
  rw [pVal_succ, skipWs_cons r hws]
  simp only [h1, h2, h3, h4, h5, h6, if_false, if_neg, ite_false, if_pos, hor]

theorem pElems_succ (fuel : Nat) (l : List Char) :
    pElems (fuel + 1) l =
      (match pVal fuel l with
       | none => none
       | some (v, r) =>
         match skipWs r with
         | [] => none
         | c :: r' =>
           if c = ',' then
             match pElems fuel r' with
             | some (es, rest) => some (v :: es, rest)
             | none => none
           else if c = ']' then some ([v], r')
           else none) := rfl

theorem pFields_succ_quote (fuel : Nat) (r : List Char) :
    pFields (fuel + 1) ('"' :: r) =
      (match pStrBody (r.length + 1) r with
       | none => none
       | some (kcs, r1) =>
         match skipWs r1 with
         | ':' :: r2 =>
           match pVal fuel r2 with
           | none => none
           | some (v, r3) =>
             match skipWs r3 with
             | [] => none
             | c :: r4 =>
               if c = ',' then
                 match pFields fuel r4 with
                 | some (fs, rest) => some ((String.mk kcs, v) :: fs, rest)
                 | none => none
               else if c = '}' then some ([(String.mk kcs, v)], r4)
               else none
         | _ => none) := rfl

theorem parse_dump (fuel : Nat) :
    (∀ v rest, (dumpV v).length < fuel → sepOk rest = true →
      pVal fuel (dumpV v ++ rest) = some (v, rest)) ∧
    (∀ v vs rest, (dumpElems (v :: vs)).length < fuel →
      pElems fuel (dumpElems (v :: vs) ++ rest) = some (v :: vs, rest)) ∧
    (∀ k v fs rest, (dumpFields ((k, v) :: fs)).length < fuel →
      pFields fuel (dumpFields ((k, v) :: fs) ++ rest) = some ((k, v) :: fs, rest)) := by
  induction fuel with
  | zero => refine ⟨?_, ?_, ?_⟩ <;> (intros; omega)
  | succ fuel ih =>
    obtain ⟨ih1, ih2, ih3⟩ := ih
    refine ⟨?_, ?_, ?_⟩
    · intro v rest hlen hsep
      cases v with
      | null => rfl
      | bool b => cases b <;> rfl
      | num n =>
        have hd : ∃ c cs, dumpInt n = c :: cs ∧ (c = '-' ∨ c.isDigit = true) := by
          by_cases hn : n < 0
          · exact ⟨'-', _, by rw [dumpInt, if_pos hn], Or.inl rfl⟩
          · obtain ⟨hne, hdig⟩ := toDigitsNat_spec n.toNat
            obtain ⟨c, cs, hcons⟩ : ∃ c cs, toDigitsNat n.toNat = c :: cs := by
              cases h : toDigitsNat n.toNat with
              | nil => exact absurd h hne
              | cons c cs => exact ⟨c, cs, rfl⟩
            exact ⟨c, cs, by rw [dumpInt, if_neg hn, hcons],
              Or.inr (hdig c (by rw [hcons]; simp))⟩
        obtain ⟨c, cs, hcons, hor⟩ := hd
        rw [show dumpV (.num n) ++ rest = c :: (cs ++ rest) by
          rw [show dumpV (.num n) = dumpInt n from rfl, hcons]; rfl]
        rw [pVal_num_head fuel _ hor]
        rw [show c :: (cs ++ rest) = dumpInt n ++ rest by rw [hcons]; rfl]
        exact pNum_dumpInt n rest hsep
      | str s =>
        rw [show dumpV (.str s) ++ rest = '"' :: (escList s.data ++ ('"' :: rest)) by
          show ('"' :: (escList s.data ++ ['"'])) ++ rest = _; simp]
        have step : pVal (fuel + 1) ('"' :: (escList s.data ++ ('"' :: rest))) =
            (match pStrBody ((escList s.data ++ ('"' :: rest)).length + 1)
                (escList s.data ++ ('"' :: rest)) with
             | some (cs, r) => some (.str (String.mk cs), r)
             | none => none) := rfl
        rw [step, pStrBody_escList s.data _ rest (by simp; omega)]
      | arr l =>
        cases l with
        | nil => rfl
        | cons v vs =>
          obtain ⟨c, cs, hc, hws, hrb, _⟩ := dumpV_head v
          obtain ⟨X, hX⟩ : ∃ X, dumpElems (v :: vs) = dumpV v ++ X := by
            cases vs with
            | nil => exact ⟨[']'], rfl⟩
            | cons v' vs' => exact ⟨',' :: dumpElems (v' :: vs'), rfl⟩
          have hlen' : (dumpElems (v :: vs)).length < fuel := by
            rw [show dumpV (.arr (v :: vs)) = '[' :: dumpElems (v :: vs) from rfl] at hlen
            simp at hlen
            omega
          have step : pVal (fuel + 1) ('[' :: (dumpElems (v :: vs) ++ rest)) =
              (match skipWs (dumpElems (v :: vs) ++ rest) with
               | [] => none
               | c' :: r' =>
                 if c' = ']' then some (.arr [], r')
                 else
                   match pElems fuel (c' :: r') with
                   | some (es, r'') => some (.arr es, r'')
                   | none => none) := rfl
          rw [show dumpV (.arr (v :: vs)) ++ rest = '[' :: (dumpElems (v :: vs) ++ rest)
              from rfl]
          rw [step]
          rw [show dumpElems (v :: vs) ++ rest = c :: (cs ++ (X ++ rest)) by
            rw [hX, hc]; simp]
          rw [skipWs_cons _ hws]
          show (if c = ']' then some (Json.arr [], cs ++ (X ++ rest))
                else
                  match pElems fuel (c :: (cs ++ (X ++ rest))) with
                  | some (es, r'') => some (Json.arr es, r'')
                  | none => none) = some (Json.arr (v :: vs), rest)
          rw [if_neg hrb]
          rw [show c :: (cs ++ (X ++ rest)) = dumpElems (v :: vs) ++ rest by
            rw [hX, hc]; simp]
          rw [ih2 v vs rest hlen']
      | obj l =>
        cases l with
        | nil => rfl
        | cons f fs =>
          obtain ⟨k, v⟩ := f
          obtain ⟨Y, hY⟩ : ∃ Y, dumpFields ((k, v) :: fs) = '"' :: Y := by
            cases fs with
            | nil =>
              refine ⟨escList k.data ++ ('"' :: (':' :: (dumpV v ++ ['}']))), ?_⟩
              show dumpStrLit k ++ ':' :: (dumpV v ++ ['}']) = _
              simp [dumpStrLit]
            | cons f' fs' =>
              refine ⟨escList k.data ++
                ('"' :: (':' :: (dumpV v ++ ',' :: dumpFields (f' :: fs')))), ?_⟩
              show dumpStrLit k ++ ':' :: (dumpV v ++ ',' :: dumpFields (f' :: fs')) = _
              simp [dumpStrLit]
          have hlen' : (dumpFields ((k, v) :: fs)).length < fuel := by
            rw [show dumpV (.obj ((k, v) :: fs)) = '{' :: dumpFields ((k, v) :: fs)
                from rfl] at hlen
            simp at hlen
            omega
          have step : pVal (fuel + 1) ('{' :: (dumpFields ((k, v) :: fs) ++ rest)) =
              (match skipWs (dumpFields ((k, v) :: fs) ++ rest) with
               | [] => none
               | c' :: r' =>
                 if c' = '}' then some (.obj [], r')
                 else
                   match pFields fuel (c' :: r') with
                   | some (gs, r'') => some (.obj gs, r'')
                   | none => none) := rfl
          rw [show dumpV (.obj ((k, v) :: fs)) ++ rest =
              '{' :: (dumpFields ((k, v) :: fs) ++ rest) from rfl]
          rw [step]
          rw [show dumpFields ((k, v) :: fs) ++ rest = '"' :: (Y ++ rest) by rw [hY]; rfl]
          rw [skipWs_cons _ (by decide)]
          show (if ('"' : Char) = '}' then some (Json.obj [], Y ++ rest)
                else
                  match pFields fuel ('"' :: (Y ++ rest)) with
                  | some (gs, r'') => some (Json.obj gs, r'')
                  | none => none) = some (Json.obj ((k, v) :: fs), rest)
          rw [if_neg (by decide : ¬ ('"' : Char) = '}')]
          rw [show ('"' : Char) :: (Y ++ rest) = dumpFields ((k, v) :: fs) ++ rest by
            rw [hY]; rfl]
          rw [ih3 k v fs rest hlen']
    · intro v vs rest hlen
      cases vs with
      | nil =>
        have hlenv : (dumpV v).length < fuel := by
          rw [show dumpElems [v] = dumpV v ++ [']'] from rfl] at hlen
          simp at hlen
          omega
        rw [show dumpElems [v] ++ rest = dumpV v ++ (']' :: rest) by
          show (dumpV v ++ [']']) ++ rest = _; simp]
        rw [pElems_succ, ih1 v (']' :: rest) hlenv rfl]
        rfl
      | cons v' vs' =>
        have hlens : (dumpV v).length < fuel ∧ (dumpElems (v' :: vs')).length < fuel := by
          rw [show dumpElems (v :: v' :: vs') = dumpV v ++ ',' :: dumpElems (v' :: vs')
              from rfl] at hlen
          simp at hlen
          omega
        rw [show dumpElems (v :: v' :: vs') ++ rest =
            dumpV v ++ (',' :: (dumpElems (v' :: vs') ++ rest)) by
          show (dumpV v ++ ',' :: dumpElems (v' :: vs')) ++ rest = _; simp]
        rw [pElems_succ, ih1 v (',' :: (dumpElems (v' :: vs') ++ rest)) hlens.1 rfl]
        show (match pElems fuel (dumpElems (v' :: vs') ++ rest) with
              | some (es, r) => some (v :: es, r)
              | none => none) = some (v :: v' :: vs', rest)
        rw [ih2 v' vs' rest hlens.2]
    · intro k v fs rest hlen
      cases fs with
      | nil =>
        have hlenv : (dumpV v).length < fuel := by
          rw [show dumpFields [(k, v)] = dumpStrLit k ++ ':' :: (dumpV v ++ ['}'])
              from rfl] at hlen
          simp [dumpStrLit] at hlen
          omega
        rw [show dumpFields [(k, v)] ++ rest =
            '"' :: (escList k.data ++ ('"' :: (':' :: (dumpV v ++ ('}' :: rest))))) by
          show (dumpStrLit k ++ ':' :: (dumpV v ++ ['}'])) ++ rest = _
          simp [dumpStrLit]]
        rw [pFields_succ_quote,
          pStrBody_escList k.data _ _ (by simp; omega)]
        show (match pVal fuel (dumpV v ++ ('}' :: rest)) with
              | none => none
              | some (w, r3) =>
                match skipWs r3 with
                | [] => none
                | c :: r4 =>
                  if c = ',' then
                    match pFields fuel r4 with
                    | some (gs, r5) => some ((String.mk k.data, w) :: gs, r5)
                    | none => none
                  else if c = '}' then some ([(String.mk k.data, w)], r4)
                  else none) = some ([(k, v)], rest)
        rw [ih1 v ('}' :: rest) hlenv rfl]
        rfl
      | cons f' fs' =>
        obtain ⟨k', v'⟩ := f'
        have hlens : (dumpV v).length < fuel ∧
            (dumpFields ((k', v') :: fs')).length < fuel := by
          rw [show dumpFields ((k, v) :: (k', v') :: fs') =
              dumpStrLit k ++ ':' :: (dumpV v ++ ',' :: dumpFields ((k', v') :: fs'))
              from rfl] at hlen
          simp [dumpStrLit] at hlen
          omega
        rw [show dumpFields ((k, v) :: (k', v') :: fs') ++ rest =
            '"' :: (escList k.data ++ ('"' :: (':' ::
              (dumpV v ++ (',' :: (dumpFields ((k', v') :: fs') ++ rest)))))) by
          show (dumpStrLit k ++ ':' :: (dumpV v ++ ',' :: dumpFields ((k', v') :: fs')))
              ++ rest = _
          simp [dumpStrLit]]
        rw [pFields_succ_quote,
          pStrBody_escList k.data _ _ (by simp; omega)]
        show (match pVal fuel (dumpV v ++ (',' :: (dumpFields ((k', v') :: fs') ++ rest))) with
              | none => none
              | some (w, r3) =>
                match skipWs r3 with
                | [] => none
                | c :: r4 =>
                  if c = ',' then
                    match pFields fuel r4 with
                    | some (gs, r5) => some ((String.mk k.data, w) :: gs, r5)
                    | none => none
                  else if c = '}' then some ([(String.mk k.data, w)], r4)
                  else none) = some ((k, v) :: (k', v') :: fs', rest)
        rw [ih1 v (',' :: (dumpFields ((k', v') :: fs') ++ rest)) hlens.1 rfl]
        show (match pFields fuel (dumpFields ((k', v') :: fs') ++ rest) with
              | some (gs, r5) => some ((String.mk k.data, v) :: gs, r5)
              | none => none) = some ((k, v) :: (k', v') :: fs', rest)
        rw [ih3 k' v' fs' rest hlens.2]

theorem json_loads_dumps (v : Json) : json_loads (dumps v) = some v := by
  have h := (parse_dump ((dumpV v).length + 1)).1 v [] (by omega) rfl
  rw [show dumpV v ++ ([] : List Char) = dumpV v from by simp] at h
  unfold json_loads
  rw [show (dumps v).length = (dumpV v).length from rfl,
    show (dumps v).data = dumpV v from rfl, h]
  rfl

/-! ## Properties of the structural recovery engine -/

theorem dropWhile_brace_decomp {l : List Char} {c : Char} {rest : List Char}
    (h : l.dropWhile (fun c => c ≠ '{') = c :: rest) :
    c = '{' ∧ ∃ t, l = t ++ c :: rest := by
  induction l with
  | nil => simp at h
  | cons a l' ih =>
    rw [List.dropWhile_cons] at h
    split at h
    · obtain ⟨hc, t, ht⟩ := ih h
      exact ⟨hc, a :: t, by rw [List.cons_append, ← ht]⟩
    · next hp =>
      obtain ⟨rfl, rfl⟩ : a = c ∧ l' = rest := by
        injection h with h1 h2
        exact ⟨h1, h2⟩
      simp at hp
      exact ⟨hp, [], by simp⟩

theorem extract_braces_none {l : List Char}
    (h : ¬ ∃ t m u, l = t ++ '{' :: (m ++ '}' :: u)) : extract_braces l = none := by
  unfold extract_braces
  cases hd : l.dropWhile (fun c => c ≠ '{') with
  | nil => rfl
  | cons c rest =>
    obtain ⟨hc, t, ht⟩ := dropWhile_brace_decomp hd
    subst hc
    by_cases hm : '}' ∈ rest
    · exfalso
      obtain ⟨m, u, hmu⟩ := List.append_of_mem hm
      exact h ⟨t, m, u, by rw [ht, hmu]⟩
    · simp [hm]

/-- C3: raw text that already parses as valid JSON is returned by
`safe_json_loads` exactly as parsed — the identity property; none of the
repair steps (comment stripping, trailing-comma removal, brace
extraction, auto-closing) runs on input that parses on the first
attempt. -/
theorem C3_direct_parse_identity (s : String) (v : Json)
    (h : json_loads s = some v) : safe_json_loads s = .ok v := by
  unfold safe_json_loads
  rw [h]

theorem C3_direct_parse_identity_witness :
    safe_json_loads "\x7b\"a\": 1\x7d" = .ok (.obj [("a", .num 1)]) :=
  C3_direct_parse_identity _ _ (by rfl)

/-- C4: raw text that fails direct parsing but whose first-`{`-to-last-`}`
candidate span parses once its trailing commas are removed (and which has
no `//` comment for the comment pass to touch) is recovered by
`safe_json_loads`, and the result is exactly the parse of the
comma-free text — no trace of the trailing comma remains. -/
theorem C4_trailing_comma_repair (s : String) (cand : List Char) (v : Json)
    (h1 : json_loads s = none)
    (h2 : extract_braces s.data = some cand)
    (h3 : strip_comments cand = cand)
    (h4 : json_loads (String.mk (remove_trailing_commas cand)) = some v) :
    safe_json_loads s = .ok v := by
  unfold safe_json_loads
  rw [h1, h2]
  simp only [h3, h4]

theorem C4_trailing_comma_repair_witness :
    safe_json_loads "\x7b\"a\": [1, 2,]\x7d" = .ok (.obj [("a", .arr [.num 1, .num 2])]) :=
  C4_trailing_comma_repair _ _ _ (by rfl) (by rfl) (by rfl) (by rfl)

/-- C4 (counterexample to the unrestricted claim): the raw text
`{"a": "http://e",}` fails direct parsing, its first-`{`-to-last-`}`
candidate is the whole text, and that candidate is valid JSON except for
its single trailing comma immediately preceding the closing `}` (removing
just the comma parses) — yet `safe_json_loads` does not recover it.  The
comment pass `re.sub(r"//.*", "", ...)` runs before trailing-comma
removal and truncates the candidate from the `//` inside the string
literal onward, after which every later repair step fails and recovery
ends in a `JSONDecodeError` instead of the promised success. -/
theorem C4_counterexample :
    json_loads "\x7b\"a\": \"http://e\",\x7d" = none ∧
    extract_braces ("\x7b\"a\": \"http://e\",\x7d".data) =
      some ("\x7b\"a\": \"http://e\",\x7d".data) ∧
    json_loads "\x7b\"a\": \"http://e\"\x7d" = some (.obj [("a", .str "http://e")]) ∧
    strip_comments ("\x7b\"a\": \"http://e\",\x7d".data) = ("\x7b\"a\": \"http:".data) ∧
    safe_json_loads "\x7b\"a\": \"http://e\",\x7d" =
      .error (.jsonDecodeError "Expecting value") :=
  ⟨by rfl, by rfl, by rfl, by rfl, by rfl⟩

/-- C5: raw text that is not valid JSON and contains no `{` followed by a
later `}` makes `safe_json_loads` fail immediately with the
`MalformedOutputError` (`ValueError("No JSON object found in response")`),
and — the return type being exact — never with an error of any other
kind. -/
theorem C5_no_brace_pair_malformed (s : String)
    (h1 : json_loads s = none)
    (h2 : ¬ ∃ t m u, s.data = t ++ '{' :: (m ++ '}' :: u)) :
    safe_json_loads s = .error (.malformedOutput "No JSON object found in response") := by
  unfold safe_json_loads
  rw [h1, extract_braces_none h2]

theorem C5_no_brace_pair_malformed_witness :
    safe_json_loads "The model declined to answer." =
      .error (.malformedOutput "No JSON object found in response") :=
  C5_no_brace_pair_malformed _ (by rfl) (by
    rintro ⟨t, m, u, h⟩
    have hm : '{' ∈ ("The model declined to answer.".data) := by
      rw [h]
      exact List.mem_append_right t (List.mem_cons_self _ _)
    exact absurd hm (by decide))

/-! ## Properties of the provider adapters -/

/-- C10: for an extractor constructed with `provider="ollama"`, the
configured `api_base_url` (supplied or defaulted at construction) is
never used by the provider call: `_call_ollama_api` always posts to the
hardcoded `http://localhost:11434/api/generate`, so changing the base URL
leaves the request unchanged. -/
theorem C10_ollama_url_fixed (key : Option String) (mdl : String) (temp : Int)
    (mt : Nat) (base base' : Option String) (tmpl prompt : String) :
    call_ollama_api (init_ollama key mdl temp mt base tmpl) prompt =
      call_ollama_api (init_ollama key mdl temp mt base' tmpl) prompt ∧
    (call_ollama_api (init_ollama key mdl temp mt base tmpl) prompt).url =
      "http://localhost:11434/api/generate" :=
  ⟨rfl, rfl⟩

/-! ## Properties of the extraction pipeline -/

theorem lookup_setKey_self (fs : List (String × Json)) (k : String) (v : Json) :
    List.lookup k (setKey fs k v) = some v := by
  induction fs with
  | nil => simp [setKey, List.lookup]
  | cons f fs' ih =>
    obtain ⟨k', v'⟩ := f
    by_cases h : k' = k
    · subst h
      simp [setKey, List.lookup]
    · have hb : (k == k') = false := beq_eq_false_iff_ne.mpr (Ne.symm h)
      simp [setKey, h, List.lookup, hb, ih]

theorem lookup_setKey_ne (fs : List (String × Json)) (k k' : String) (v : Json)
    (hne : k' ≠ k) : List.lookup k' (setKey fs k v) = List.lookup k' fs := by
  have hb : (k' == k) = false := beq_eq_false_iff_ne.mpr hne
  induction fs with
  | nil => simp [setKey, List.lookup, hb]
  | cons f fs' ih =>
    obtain ⟨k'', v''⟩ := f
    by_cases h : k'' = k
    · subst h
      simp [setKey, List.lookup, hb]
    · cases hbk : (k' == k'') <;> simp [setKey, h, List.lookup, hbk, ih]

/-- C2: whenever `extract_process_flow` succeeds, the returned flow is a
mapping whose `source_document` is the pipeline-supplied document name
and whose `extraction_model` is the configured model identifier — any
conflicting values in the recovered model output are overwritten. -/
theorem C2_metadata_overwritten (cfg : ExtractorConfig)
    (send : String → Except PyError String) (content name : String) (flow : Json)
    (h : extract_process_flow cfg send content name = .ok flow) :
    ∃ fields, flow = .obj fields ∧
      List.lookup "source_document" fields = some (.str name) ∧
      List.lookup "extraction_model" fields = some (.str cfg.model) := by
  unfold extract_process_flow at h
  split at h
  · exact absurd h (by simp)
  · split at h
    · exact absurd h (by simp)
    · exact absurd h (by simp)
    · split at h
      · simp only [Except.ok.injEq] at h
        refine ⟨_, h.symm, ?_, ?_⟩
        · rw [lookup_setKey_ne _ _ _ _ (by decide), lookup_setKey_self]
        · rw [lookup_setKey_self]
      · exact absurd h (by simp)

theorem C2_metadata_overwritten_witness :
    ∃ fields,
      (Json.obj [("process_name", .str "P"), ("source_document", .str "doc1"),
        ("extraction_model", .str "gpt-4o-mini")]) = .obj fields ∧
      List.lookup "source_document" fields = some (.str "doc1") ∧
      List.lookup "extraction_model" fields = some (.str "gpt-4o-mini") :=
  C2_metadata_overwritten testCfg spoofSend "content" "doc1" _ (by rfl)

/-- C9 counterexample: at the concrete response `"[1, 2]"` — valid JSON
whose recovered top-level value is an array, not a keyed mapping — the
extraction fails with a `TypeError` raised at the metadata assignment,
not with the recovery engine's `MalformedOutputError` as the claim
states. -/
theorem C9_counterexample :
    extract_process_flow testCfg arraySend "content" "doc" =
      .error (.typeError "does not support item assignment") ∧
    isMalformedOutputB (extract_process_flow testCfg arraySend "content" "doc") = false :=
  ⟨rfl, rfl⟩

/-- C9 amended: whenever the provider call and structural recovery
succeed but the recovered top-level value is not a keyed mapping, the
extraction fails with a `TypeError` from the pipeline's metadata item
assignment (recovery itself raised nothing); for a keyed mapping the
remainder of the pipeline never raises and extraction succeeds. -/
theorem C9_nonmapping_type_error (cfg : ExtractorConfig)
    (send : String → Except PyError String) (content name resp : String) (v : Json)
    (h1 : send (mkPrompt cfg content name) = .ok resp)
    (h2 : safe_json_loads resp = .ok v) :
    (isObj v = false →
      extract_process_flow cfg send content name =
        .error (.typeError "does not support item assignment")) ∧
    (isObj v = true →
      ∃ fields, extract_process_flow cfg send content name = .ok (.obj fields)) := by
  simp only [extract_process_flow, h1, h2]
  constructor
  · intro hv
    cases v with
    | obj fields => simp [isObj] at hv
    | null => rfl
    | bool b => rfl
    | num n => rfl
    | str s => rfl
    | arr l => rfl
  · intro hv
    cases v with
    | obj fields => exact ⟨_, rfl⟩
    | null => simp [isObj] at hv
    | bool b => simp [isObj] at hv
    | num n => simp [isObj] at hv
    | str s => simp [isObj] at hv
    | arr l => simp [isObj] at hv

theorem C9_nonmapping_type_error_witness :
    extract_process_flow testCfg arraySend "content" "doc" =
      .error (.typeError "does not support item assignment") :=
  (C9_nonmapping_type_error testCfg arraySend "content" "doc" "[1, 2]"
    (.arr [.num 1, .num 2]) (by rfl) (by rfl)).1 (by rfl)

/-- C7: the generic REST adapter extracts the response text by attempting
shapes in exactly this priority order, with the guard as implemented:
(1) whenever `choices` is present and `len(data["choices"]) > 0`, the code
commits to `choices[0]["message"]["content"]` — for a non-empty `choices`
list of the expected shape this yields the message content, but for a
present `choices` value that is a non-empty string, `choices[0]` is a
one-character string and the `["message"]` subscript raises `TypeError`,
which propagates (the raw payload is not serialized back in that case);
then — only when `choices` is absent or an empty list — (2) a `content`
field (a string returned as-is, or a list of blocks whose `text` fields
are concatenated in order); (3) a `text` field; (4) a `message` field
(`message["content"]` when `message` is a mapping with that key,
otherwise `message` stringified); and (5) when none match, the whole raw
payload serialized back to a text string and returned (with a logged
warning), never silently dropped. -/
theorem C7_response_shape_priority (d : List (String × Json)) :
    (∀ c0 cs m v, List.lookup "choices" d = some (.arr (c0 :: cs)) →
      pyGetKey c0 "message" = .ok m → pyGetKey m "content" = .ok v →
      extract_response_text d = .ok v) ∧
    (∀ s, noChoices d → List.lookup "content" d = some (.str s) →
      extract_response_text d = .ok (.str s)) ∧
    (∀ items s, noChoices d → List.lookup "content" d = some (.arr items) →
      joinTexts items = .ok s → extract_response_text d = .ok (.str s)) ∧
    (∀ t, noChoices d → List.lookup "content" d = none →
      List.lookup "text" d = some t → extract_response_text d = .ok t) ∧
    (∀ mfs c, noChoices d → List.lookup "content" d = none →
      List.lookup "text" d = none → List.lookup "message" d = some (.obj mfs) →
      List.lookup "content" mfs = some c → extract_response_text d = .ok c) ∧
    (∀ mfs, noChoices d → List.lookup "content" d = none →
      List.lookup "text" d = none → List.lookup "message" d = some (.obj mfs) →
      List.lookup "content" mfs = none →
      extract_response_text d = .ok (.str (pyStr (.obj mfs)))) ∧
    (∀ m, noChoices d → List.lookup "content" d = none →
      List.lookup "text" d = none → List.lookup "message" d = some m →
      isObj m = false → extract_response_text d = .ok (.str (pyStr m))) ∧
    (noChoices d → List.lookup "content" d = none →
      List.lookup "text" d = none → List.lookup "message" d = none →
      extract_response_text d = .ok (.str (dumps (.obj d)))) ∧
    (∀ c r, List.lookup "choices" d = some (.str (String.mk (c :: r))) →
      extract_response_text d = .error (.typeError "indices must be integers")) := by
  refine ⟨?_, ?_, ?_, ?_, ?_, ?_, ?_, ?_, ?_⟩
  · intro c0 cs m v hch hm hv
    simp only [extract_response_text, hch, pyLen, pyIndex0, hm, hv]
    rfl
  · intro s hnc hco
    rcases hnc with h | h <;>
      (simp only [extract_response_text, h, pyLen, customFallback, hco]; try rfl)
  · intro items s hnc hco hj
    rcases hnc with h | h <;>
      (simp only [extract_response_text, h, pyLen, customFallback, hco, hj, Except.map];
       try rfl)
  · intro t hnc hco ht
    rcases hnc with h | h <;>
      (simp only [extract_response_text, h, pyLen, customFallback, hco, ht]; try rfl)
  · intro mfs c hnc hco ht hm hc
    rcases hnc with h | h <;>
      (simp only [extract_response_text, h, pyLen, customFallback, hco, ht, hm, hc];
       try rfl)
  · intro mfs hnc hco ht hm hc
    rcases hnc with h | h <;>
      (simp only [extract_response_text, h, pyLen, customFallback, hco, ht, hm, hc];
       try rfl)
  · intro m hnc hco ht hm hobj
    rcases hnc with h | h <;> cases m <;> simp [isObj] at hobj ⊢ <;>
      (simp only [extract_response_text, h, pyLen, customFallback, hco, ht, hm]; try rfl)
  · intro hnc hco ht hm
    rcases hnc with h | h <;>
      (simp only [extract_response_text, h, pyLen, customFallback, hco, ht, hm]; try rfl)
  · intro c r hch
    simp only [extract_response_text, hch]
    rfl

theorem C7_response_shape_priority_witness :
    extract_response_text
        [("choices", .arr [.obj [("message", .obj [("content", .str "hi")])]])] =
      .ok (.str "hi") ∧
    extract_response_text [("content", .str "direct")] = .ok (.str "direct") ∧
    extract_response_text
        [("content", .arr [.obj [("text", .str "a")], .obj [("text", .str "b")]])] =
      .ok (.str "ab") ∧
    extract_response_text [("choices", .arr []), ("text", .str "t")] = .ok (.str "t") ∧
    extract_response_text [("message", .obj [("content", .str "mc")])] =
      .ok (.str "mc") ∧
    extract_response_text [("message", .str "plain")] = .ok (.str "plain") ∧
    extract_response_text [("status", .str "ok")] =
      .ok (.str (dumps (.obj [("status", .str "ok")]))) ∧
    extract_response_text [("choices", .str "abc")] =
      .error (.typeError "indices must be integers") :=
  ⟨(C7_response_shape_priority _).1 _ _ _ _ (by rfl) (by rfl) (by rfl),
   (C7_response_shape_priority _).2.1 _ (Or.inl (by rfl)) (by rfl),
   (C7_response_shape_priority _).2.2.1 _ _ (Or.inl (by rfl)) (by rfl) (by rfl),
   (C7_response_shape_priority _).2.2.2.1 _ (Or.inr (by rfl)) (by rfl) (by rfl),
   (C7_response_shape_priority _).2.2.2.2.1 _ _ (Or.inl (by rfl)) (by rfl) (by rfl)
     (by rfl) (by rfl),
   (C7_response_shape_priority _).2.2.2.2.2.2.1 (Json.str "plain") (Or.inl (by rfl))
     (by rfl) (by rfl) (by rfl) (by rfl),
   (C7_response_shape_priority _).2.2.2.2.2.2.2.1 (Or.inl (by rfl)) (by rfl) (by rfl)
     (by rfl),
   (C7_response_shape_priority _).2.2.2.2.2.2.2.2 'a' ['b', 'c'] (by rfl)⟩

/-- C7 (counterexample to the frozen claim): for the payload
`{"choices": "abc"}` none of the claim's shapes matches — the `choices`
value is a string, not a non-empty list, and no `content`, `text` or
`message` key is present — so the frozen claim's step (5) promises the
whole raw payload serialized back to a text string; instead the code's
guard `len(data["choices"]) > 0` succeeds (`len` of the string is 3) and
commits to the `choices` path, where `choices[0]["message"]` raises
`TypeError`, which propagates (only `RequestException` is caught). -/
theorem C7_counterexample :
    List.lookup "choices" [("choices", Json.str "abc")] = some (Json.str "abc") ∧
    List.lookup "content" [("choices", Json.str "abc")] = none ∧
    List.lookup "text" [("choices", Json.str "abc")] = none ∧
    List.lookup "message" [("choices", Json.str "abc")] = none ∧
    extract_response_text [("choices", Json.str "abc")] =
      .error (.typeError "indices must be integers") :=
  ⟨by rfl, by rfl, by rfl, by rfl, by rfl⟩

/-! ## Properties of the persistence mapper -/

theorem insertSteps_flows (pfid : Nat) (steps : List Json) (t : Tables) :
    (insertSteps pfid steps t).1.process_flows = t.process_flows := by
  induction steps generalizing t with
  | nil => rfl
  | cons s rest ih =>
    cases h : mkStepRow pfid s with
    | error e => simp [insertSteps, h]
    | ok row =>
      simp only [insertSteps, h]
      rw [ih]

theorem insertChildRows_flows (pfid : Nat) (get : Tables → List ChildRow)
    (set : Tables → List ChildRow → Tables)
    (hset : ∀ t l, (set t l).process_flows = t.process_flows)
    (vals : List Json) (t : Tables) :
    (insertChildRows pfid get set vals t).1.process_flows = t.process_flows := by
  induction vals generalizing t with
  | nil => rfl
  | cons v rest ih =>
    cases h : bindJson v with
    | error e => simp [insertChildRows, h]
    | ok sv =>
      simp only [insertChildRows, h]
      rw [ih, hset]

theorem insertChildren_flows (pfid : Nat) (fs : List (String × Json)) (t : Tables) :
    (insertChildren pfid fs t).1.process_flows = t.process_flows := by
  unfold insertChildren
  split
  · rfl
  · next steps _ =>
    have h1 := insertSteps_flows pfid steps t
    split
    · next t1 e hins =>
      rw [hins] at h1
      exact h1
    · next t1 hins =>
      rw [hins] at h1
      split
      · exact h1
      · next roles _ =>
        have h2 := insertChildRows_flows pfid (fun t => t.process_roles)
          (fun t l => { t with process_roles := l }) (fun t l => rfl) roles t1
        split
        · next t2 e hrw =>
          rw [hrw] at h2
          rw [h2]
          exact h1
        · next t2 hrw =>
          rw [hrw] at h2
          split
          · rw [h2]
            exact h1
          · next tools _ =>
            have h3 := insertChildRows_flows pfid (fun t => t.process_tools)
              (fun t l => { t with process_tools := l }) (fun t l => rfl) tools t2
            split
            · next t3 e hrw3 =>
              rw [hrw3] at h3
              rw [h3, h2]
              exact h1
            · next t3 hrw3 =>
              rw [hrw3] at h3
              split
              · rw [h3, h2]
                exact h1
              · next reqs _ =>
                have h4 := insertChildRows_flows pfid
                  (fun t => t.compliance_requirements)
                  (fun t l => { t with compliance_requirements := l })
                  (fun t l => rfl) reqs t3
                rw [h4, h3, h2]
                exact h1

/-- C6: persist-then-reload is the identity on the flow dictionary —
`insert_process_flow` stores `json.dumps(flow)` verbatim and
`get_process_flow` returns `json.loads` of it, so every stored value,
including `next_steps` references to step numbers that match no existing
step, is reproduced exactly, and no validation error is raised for
dangling references (the witness persists a flow whose only step points
to the non-existent step 99). -/
theorem C6_persist_reload_roundtrip (st : DBState) (flow : Json) (pfid : Nat)
    (st' : DBState) (hwf : st.wf = true)
    (h : insert_process_flow st flow = (.ok pfid, st')) :
    get_process_flow st' pfid = some flow := by
  unfold insert_process_flow at h
  split at h
  · next fs =>
    split at h
    · exact absurd h (by simp)
    · split at h
      · exact absurd h (by simp)
      · next t' hch =>
        simp only [Prod.mk.injEq, Except.ok.injEq] at h
        obtain ⟨hid, hst⟩ := h
        subst hid
        subst hst
        have hfl := congrArg (fun p => p.1.process_flows) hch
        simp only [insertChildren_flows] at hfl
        unfold get_process_flow DBState.visible Tables.append
        simp only [List.append_nil]
        rw [← hfl]
        rw [← List.append_assoc]
        rw [List.find?_append]
        have hnone : (st.committed.process_flows ++
            st.pending.process_flows).find?
              (fun r => r.id == st.next_flow_id) = none := by
          rw [List.find?_eq_none]
          intro r hr
          have := (List.all_eq_true.mp hwf) r hr
          simp only [decide_eq_true_eq] at this
          simp only [beq_iff_eq]
          omega
        rw [List.find?_append, hnone]
        simp only [Option.none_or, List.find?_cons, Tables.empty]
        simp
        exact json_loads_dumps (.obj fs)
  · exact absurd h (by simp)

theorem C6_persist_reload_roundtrip_witness :
    get_process_flow (insert_process_flow DBState.empty testFlow).2 1 = some testFlow :=
  C6_persist_reload_roundtrip DBState.empty testFlow 1 _ (by rfl) (by rfl)

theorem mkStepRow_err (pfid pfid' : Nat) (step : Json) :
    errOf (mkStepRow pfid step) = errOf (mkStepRow pfid' step) := by
  cases step with
  | obj fs =>
    rcases h1 : bindJson (getD fs "step_number" (Json.num 0)) with e1 | v1 <;>
    rcases h2 : bindJson (getD fs "step_name" (Json.str "")) with e2 | v2 <;>
    rcases h3 : bindJson (getD fs "description" (Json.str "")) with e3 | v3 <;>
    rcases h4 : bindJson (getD fs "responsible_role" (Json.str "")) with e4 | v4 <;>
      simp [mkStepRow, h1, h2, h3, h4, errOf, bind, Except.bind]
  | null => rfl
  | bool b => rfl
  | num n => rfl
  | str s => rfl
  | arr l => rfl

theorem insertSteps_err (pfid pfid' : Nat) (steps : List Json) :
    ∀ t t', (insertSteps pfid steps t).2 = (insertSteps pfid' steps t').2 := by
  induction steps with
  | nil => intro t t'; rfl
  | cons s rest ih =>
    intro t t'
    have hmk := mkStepRow_err pfid pfid' s
    rcases e1 : mkStepRow pfid s with er1 | row1
    · rcases e2 : mkStepRow pfid' s with er2 | row2
      · rw [e1, e2] at hmk
        simp [errOf] at hmk
        subst hmk
        simp [insertSteps, e1, e2]
      · rw [e1, e2] at hmk
        simp [errOf] at hmk
    · rcases e2 : mkStepRow pfid' s with er2 | row2
      · rw [e1, e2] at hmk
        simp [errOf] at hmk
      · simp only [insertSteps, e1, e2]
        exact ih _ _

theorem insertChildRows_err (pfid pfid' : Nat) (g g' : Tables → List ChildRow)
    (s s' : Tables → List ChildRow → Tables) (vals : List Json) :
    ∀ t t', (insertChildRows pfid g s vals t).2 = (insertChildRows pfid' g' s' vals t').2 := by
  induction vals with
  | nil => intro t t'; rfl
  | cons v rest ih =>
    intro t t'
    rcases hb : bindJson v with e | sv
    · simp [insertChildRows, hb]
    · simp only [insertChildRows, hb]
      exact ih _ _

theorem insertChildren_err (pfid pfid' : Nat) (fs : List (String × Json)) :
    ∀ t t', (insertChildren pfid fs t).2 = (insertChildren pfid' fs t').2 := by
  intro t t'
  unfold insertChildren
  rcases hi : pyIter (getD fs "steps" (Json.arr [])) with e | steps
  · rfl
  · have hs := insertSteps_err pfid pfid' steps t t'
    rcases es : insertSteps pfid steps t with ⟨t1, oe⟩
    rcases es' : insertSteps pfid' steps t' with ⟨t1', oe'⟩
    rw [es, es'] at hs
    simp only at hs
    subst hs
    cases oe with
    | some e => simp [es, es']
    | none =>
      simp only [es, es']
      rcases hr : pyIter (getD fs "roles" (Json.arr [])) with e | roles
      · rfl
      · have h2 := insertChildRows_err pfid pfid' (fun t => t.process_roles)
          (fun t => t.process_roles) (fun t l => { t with process_roles := l })
          (fun t l => { t with process_roles := l }) roles t1 t1'
        rcases er : insertChildRows pfid (fun t => t.process_roles)
            (fun t l => { t with process_roles := l }) roles t1 with ⟨t2, oe2⟩
        rcases er' : insertChildRows pfid' (fun t => t.process_roles)
            (fun t l => { t with process_roles := l }) roles t1' with ⟨t2', oe2'⟩
        rw [er, er'] at h2
        simp only at h2
        subst h2
        cases oe2 with
        | some e => simp [er, er']
        | none =>
          simp only [er, er']
          rcases ht : pyIter (getD fs "tools_systems" (Json.arr [])) with e | tools
          · rfl
          · have h3 := insertChildRows_err pfid pfid' (fun t => t.process_tools)
              (fun t => t.process_tools) (fun t l => { t with process_tools := l })
              (fun t l => { t with process_tools := l }) tools t2 t2'
            rcases et : insertChildRows pfid (fun t => t.process_tools)
                (fun t l => { t with process_tools := l }) tools t2 with ⟨t3, oe3⟩
            rcases et' : insertChildRows pfid' (fun t => t.process_tools)
                (fun t l => { t with process_tools := l }) tools t2' with ⟨t3', oe3'⟩
            rw [et, et'] at h3
            simp only at h3
            subst h3
            cases oe3 with
            | some e => simp [et, et']
            | none =>
              simp only [et, et']
              rcases hq : pyIter (getD fs "compliance_requirements" (Json.arr []))
                with e | reqs
              · rfl
              · exact insertChildRows_err pfid pfid' _ _ _ _ reqs t3 t3'

theorem insert_ok_indep (st st' : DBState) (flow : Json) :
    ((insert_process_flow st flow).1).toOption.isSome =
      ((insert_process_flow st' flow).1).toOption.isSome := by
  cases flow with
  | obj fs =>
    unfold insert_process_flow
    rcases hb : bindParentRow fs with e | tup
    · simp [hb]
    · obtain ⟨pn, pd, sd, dp, dr, em⟩ := tup
      simp only [hb]
      have hc := insertChildren_err st.next_flow_id st'.next_flow_id fs
        { st.pending with process_flows := st.pending.process_flows ++
            [⟨st.next_flow_id, pn, pd, sd, dp, dr, em, dumps (.obj fs)⟩] }
        { st'.pending with process_flows := st'.pending.process_flows ++
            [⟨st'.next_flow_id, pn, pd, sd, dp, dr, em, dumps (.obj fs)⟩] }
      split
      · next t1 e hx =>
        rw [hx] at hc
        split
        · rfl
        · next t2 hy =>
          rw [hy] at hc
          simp at hc
      · next t1 hx =>
        rw [hx] at hc
        split
        · next t2 e hy =>
          rw [hy] at hc
          simp at hc
        · rfl
  | null => rfl
  | bool b => rfl
  | num n => rfl
  | str s => rfl
  | arr l => rfl

/-- C8: failure isolation in batch processing.  First conjunct: the
orchestrator (`extract_from_documents`) returns exactly the results of
the documents whose pipeline run succeeded, in input order — a failing
document is skipped and processing continues, so the loop never aborts
early.  Second conjunct: `insert_multiple` returns one identifier per
successfully inserted flow; whether a flow inserts successfully is
independent of the connection state, so one flow's failure never affects
the processing of the others. -/
theorem C8_batch_failure_isolation :
    (∀ cfg (send : String → Except PyError String) (docs : List DocumentInput),
      extract_from_documents cfg send docs =
        docs.filterMap (fun doc => (extract_one cfg send doc).toOption)) ∧
    (∀ (st : DBState) (flows : List Json),
      (insert_multiple st flows).1.length =
        (flows.filter
          (fun f => ((insert_process_flow st f).1).toOption.isSome)).length) := by
  constructor
  · intro cfg send docs
    induction docs with
    | nil => rfl
    | cons d rest ih =>
      cases h : extract_one cfg send d with
      | ok f => simp [extract_from_documents, h, Except.toOption, ih]
      | error e => simp [extract_from_documents, h, Except.toOption, ih]
  · intro st flows
    induction flows generalizing st with
    | nil => rfl
    | cons f rest ih =>
      cases h : insert_process_flow st f with
      | mk r st1 =>
        have h1 : (insert_process_flow st f).1 = r := by rw [h]
        cases r with
        | ok pfid =>
          simp only [insert_multiple, h]
          rw [List.filter_cons]
          simp only [h1, Except.toOption, Option.isSome_some, if_pos]
          simp only [List.length_cons]
          rw [ih st1, List.filter_congr
            (fun g _ => insert_ok_indep st1 st g)]
          simp [Except.toOption]
        | error e =>
          simp only [insert_multiple, h]
          rw [List.filter_cons]
          simp only [h1, Except.toOption, Option.isSome_none, Bool.false_eq_true,
            if_neg, ite_false]
          rw [ih st1, List.filter_congr
            (fun g _ => insert_ok_indep st1 st g)]
          simp [Except.toOption]

/-- C1: `insert_process_flow` is not atomic.  At `badFlow` — whose parent
`INSERT` succeeds and whose first step `INSERT` raises `AttributeError` —
the failed call leaves the parent row pending on the connection (no
rollback is issued), and the next successful insert on the same
connection (as performed by `insert_multiple`) durably commits that
orphaned parent row: the committed parent table then holds a `BadFlow`
row with no step rows, so rows for the failed flow are observable. -/
theorem C1_orphan_parent_row_committed :
    (insert_process_flow DBState.empty badFlow).1 =
      .error (.attributeError "object has no attribute get") ∧
    ((insert_process_flow DBState.empty badFlow).2.pending.process_flows.map
      (fun r => r.id)) = [1] ∧
    (insert_multiple DBState.empty [badFlow, goodFlow]).1 = [2] ∧
    ((insert_multiple DBState.empty [badFlow, goodFlow]).2.committed.process_flows.map
      (fun r => (r.id, r.process_name))) = [(1, .text "BadFlow"), (2, .text "Good")] ∧
    (insert_multiple DBState.empty [badFlow, goodFlow]).2.committed.process_steps = [] :=
  ⟨rfl, rfl, rfl, rfl, rfl⟩

end StreamSpec
